import Mathlib

/-!
Verification of the query-result pipeline of `athena.py`.

The module wraps a remote query service: `Athena.query` submits a query and
polls until the first successful `get_query_results` call, and
`AthenaResult` holds the execution state and reshapes the paginated
response into rows of strings (`result`), a delimited string (`to_string`)
and an uploaded object (`to_s3`).

The embedding below models the remote response as a fixed list of pages
carried inside the `AthenaResult` state (the service is deterministic and
unchanged between calls), models each remote paginated fetch by an
instrumentation counter `paginate_calls` on the state, and models the
polling loop by the list of outcomes of the successive readiness checks.
-/

set_option autoImplicit false

namespace PyAthena

/-- One cell of a result row: the dictionary `{'VarCharValue': v}`, where the
key may be absent (`e.get('VarCharValue', u'')` in the source). -/
structure Cell where
  varCharValue : Option String
deriving DecidableEq, Repr

/-- One row of a result page: the dictionary access `row['Data']`. -/
structure Row where
  data : List Cell
deriving DecidableEq, Repr

/-- One page of the paginated response: the access `i['ResultSet']['Rows']`. -/
structure Page where
  rows : List Row
deriving DecidableEq, Repr

/-- `e.get('VarCharValue', u'')`: the cell text if present, else `''`. -/
def decodeCell (e : Cell) : String :=
  e.varCharValue.getD ""

/-- The inner decoding loop of `AthenaResult.result` (lines 89-91):
`datum = []; for e in d: datum.append(e.get('VarCharValue', u''))`. -/
def decodeRow (d : List Cell) : List String :=
  d.foldl (fun datum e => datum ++ [decodeCell e]) []

/-- The outer decoding loop of `AthenaResult.result` (lines 87-92):
`final_data = []; for d in data: ... final_data.append(datum)`. -/
def decodeData (data : List (List Cell)) : List (List String) :=
  data.foldl (fun final_data d => final_data ++ [decodeRow d]) []

/-- Line 83: `result_sets = [i['ResultSet']['Rows'] for i in results]`. -/
def result_sets_of (results : List Page) : List (List Row) :=
  results.map (fun i => i.rows)

/-- Line 84: `rows = [y for x in result_sets for y in x]`. -/
def rows_of (results : List Page) : List Row :=
  (result_sets_of results).flatten

/-- Line 85: `data = [row['Data'] for row in rows]`. -/
def data_of (results : List Page) : List (List Cell) :=
  (rows_of results).map (fun row => row.data)

/-- The value of `final_data` after the decoding loops (line 92), before the
header pop of lines 94-95. -/
def final_data_of (results : List Page) : List (List String) :=
  decodeData (data_of results)

/-- State of one `AthenaResult` object.  `pages` models the pages the remote
paginator returns for this execution id (fixed between calls);
`results` and `results_str` are the memoization fields `self.results` and
`self.results_str` (both `None` at construction); `paginate_calls` is an
instrumentation counter: how many paginated fetch sequences
(`self.paginator.paginate(...)` fully iterated) have been issued so far. -/
structure AthenaResult where
  pages : List Page
  results : Option (List (List String))
  results_str : Option String
  paginate_calls : Nat
deriving DecidableEq, Repr

/-- `AthenaResult.result(self, header=True)` (lines 72-97).  One remote
paginated fetch is issued unconditionally; with zero pages the empty list is
returned before the memoization field is assigned; otherwise the decoded
rows are stored in `self.results` and the first row is then popped in place,
so the cached list and the returned list are the same popped list.  The
`header` parameter is dead: no statement of the body reads it. -/
def AthenaResult.result (s : AthenaResult) (header : Bool) :
    List (List String) × AthenaResult :=
  -- line 74: existence check `self.client.get_query_results(...)`, assumed to
  -- succeed here (a failure would propagate to the caller, lines untouched)
  -- lines 75-78: one paginated fetch, collecting every page
  let s1 : AthenaResult := { s with paginate_calls := s.paginate_calls + 1 }
  let results := s1.pages
  if results.length = 0 then
    -- lines 80-81: early return, `self.results` not assigned
    ([], s1)
  else
    -- lines 83-92
    let final_data := final_data_of results
    -- line 93: `self.results = final_data`, then lines 94-95:
    -- `if len(final_data) > 0: final_data.pop(0)` mutates that same list
    let popped := if final_data.length > 0 then final_data.tail else final_data
    (popped, { s1 with results := some popped })

/-- Python `delim.join(parts)` on character lists. -/
def joinChars (sep : List Char) : List (List Char) → List Char
  | [] => []
  | [x] => x
  | x :: y :: xs => x ++ sep ++ joinChars sep (y :: xs)

/-- Python `delim.join(parts)` on strings. -/
def join (delim : String) (parts : List String) : String :=
  ⟨joinChars delim.data (parts.map String.data)⟩

/-- Lines 103-104 of `to_string`:
`lines = [delim.join(i) for i in self.results]` and
`as_string = '\n'.join(lines) + '\n'`. -/
def to_string_body (rows : List (List String)) (delim : String) : String :=
  join "\n" (rows.map (fun i => join delim i)) ++ "\n"

/-- `AthenaResult.to_string(self, delim='\t')` (lines 99-106).  When
`self.results` is `None` a fresh `self.result()` call is made (with the
default `header=True`) and its value assigned to `self.results`; the rows
are then joined and the string memoized in `self.results_str`. -/
def AthenaResult.to_string (s : AthenaResult) (delim : String) :
    String × AthenaResult :=
  match s.results with
  | none =>
    let (r, s1) := s.result true
    let s2 : AthenaResult := { s1 with results := some r }
    let as_string := to_string_body r delim
    (as_string, { s2 with results_str := some as_string })
  | some r =>
    let as_string := to_string_body r delim
    (as_string, { s with results_str := some as_string })

/-- `AthenaResult.to_s3` (lines 108-114): the body uploaded to storage is the
memoized string, computed by `to_string` first when absent. -/
def AthenaResult.to_s3_body (s : AthenaResult) : String × AthenaResult :=
  match s.results_str with
  | none =>
    let (st, s1) := s.to_string "\t"
    (st, { s1 with results_str := some st })
  | some st => (st, s)

/-- The polling loop of `Athena.query` (lines 45-50):
`while True: try: get_query_results(...); break; except Exception: sleep(10)`.
`outcomes` lists the success (`true`) or raised-exception (`false`) of the
successive `get_query_results` calls; the value is `none` while no call has
succeeded (the loop is still running after all listed outcomes), else
`some (attempts, sleepSeconds)`: the number of calls made and the total
seconds slept inside the loop. -/
def pollLoop : List Bool → Option (Nat × Nat)
  | [] => none
  | ok :: rest =>
    if ok then some (1, 0)
    else (pollLoop rest).map (fun p => (p.1 + 1, p.2 + 10))

/-- The poll phase of `Athena.query` (lines 44-50): `time.sleep(3)` before the
loop, then the loop; total sleep is 3 plus the in-loop sleeps. -/
def queryPoll (outcomes : List Bool) : Option (Nat × Nat) :=
  (pollLoop outcomes).map (fun p => (p.1, 3 + p.2))

/-- `AthenaResult._format_results` (lines 116-132), present in the source but
called from nowhere: its cell decoding *skips* a cell whose `VarCharValue`
key is missing (`except KeyError: continue`), unlike the decoding `result`
performs. -/
def format_results_row (row : List Cell) : List String :=
  row.foldl
    (fun datum j => match j.varCharValue with
      | some val => datum ++ [val]
      | none => datum)
    []

/-- A fresh `AthenaResult` for a service that returns `pages`:
`self.results = None`, `self.results_str = None`, no fetch issued yet. -/
def mkResult (pages : List Page) : AthenaResult :=
  ⟨pages, none, none, 0⟩

/-- One page whose rows are `[["a","b"], ["1","2"]]`. -/
def examplePage1 : Page :=
  ⟨[⟨[⟨some "a"⟩, ⟨some "b"⟩]⟩, ⟨[⟨some "1"⟩, ⟨some "2"⟩]⟩]⟩

/-- One page whose rows are `[["3","4"]]`. -/
def examplePage2 : Page :=
  ⟨[⟨[⟨some "3"⟩, ⟨some "4"⟩]⟩]⟩

/-- Python `s.split(sep)` for a one-character separator, on character lists:
accumulate the current segment (reversed) and cut at every separator.
An empty input yields one empty segment, and a separator at the end yields a
final empty segment, exactly as in Python. -/
def splitCharAux (sep : Char) : List Char → List Char → List (List Char)
  | [], acc => [acc.reverse]
  | c :: cs, acc =>
    if c = sep then acc.reverse :: splitCharAux sep cs []
    else splitCharAux sep cs (c :: acc)

/-- Python `s.split(sep)` for a one-character separator, on character lists. -/
def splitChars (sep : Char) (cs : List Char) : List (List Char) :=
  splitCharAux sep cs []

/-- Python `s.split(sep)` for a one-character separator, on strings. -/
def pySplit (s : String) (sep : Char) : List String :=
  (splitChars sep s.data).map (fun cs => ⟨cs⟩)

/-- The round trip of the spec: split the serialized output on the newline,
drop the final (empty) segment, and re-split every line on the delimiter. -/
def roundTrip (out : String) (delim : Char) : List (List String) :=
  ((pySplit out '\n').dropLast).map (fun line => pySplit line delim)

/-- The characters of one serialized line of `to_string`: `'\t'.join(i)`. -/
def lineChars (row : List String) : List Char :=
  joinChars ['\t'] (row.map String.data)

/-! ## Helper lemmas -/

theorem foldl_append_eq_map {α β : Type} (f : α → β) (l : List α) :
    ∀ acc : List β, l.foldl (fun a x => a ++ [f x]) acc = acc ++ l.map f := by
  induction l with
  | nil => intro acc; simp
  | cons x xs ih => intro acc; simp [ih]

theorem decodeRow_eq_map (d : List Cell) : decodeRow d = d.map decodeCell := by
  simpa using foldl_append_eq_map decodeCell d []

theorem decodeData_eq_map (data : List (List Cell)) :
    decodeData data = data.map decodeRow := by
  simpa using foldl_append_eq_map decodeRow data []

/-- Characterization of `AthenaResult.result`: zero pages return `[]` and touch
only the fetch counter; otherwise the decoded rows minus their first row are
both returned and stored in `self.results`. -/
theorem result_spec (s : AthenaResult) (h : Bool) :
    s.result h =
      if s.pages.length = 0 then
        ([], { s with paginate_calls := s.paginate_calls + 1 })
      else
        ((final_data_of s.pages).tail,
          { s with paginate_calls := s.paginate_calls + 1,
                   results := some ((final_data_of s.pages).tail) }) := by
  unfold AthenaResult.result
  by_cases hp : s.pages.length = 0
  · simp [hp]
  · by_cases hf : 0 < (final_data_of s.pages).length
    · simp [hp, hf]
    · have hnil : final_data_of s.pages = [] := by
        cases hfd : final_data_of s.pages with
        | nil => rfl
        | cons a l => rw [hfd] at hf; simp at hf
      simp [hp, hf, hnil]

/-- `to_string` with a populated cache: no new fetch, only the string memo. -/
theorem to_string_cached (s : AthenaResult) (r : List (List String))
    (hr : s.results = some r) (delim : String) :
    s.to_string delim =
      (to_string_body r delim, { s with results_str := some (to_string_body r delim) }) := by
  unfold AthenaResult.to_string
  rw [hr]

theorem splitCharAux_no_sep (sep : Char) (p : List Char) :
    ∀ acc : List Char, sep ∉ p → splitCharAux sep p acc = [acc.reverse ++ p] := by
  induction p with
  | nil => intro acc _; simp [splitCharAux]
  | cons c cs ih =>
    intro acc h
    have hc : ¬ c = sep := fun hcs => h (by rw [hcs]; exact List.mem_cons_self sep cs)
    have hcs : sep ∉ cs := fun hm => h (List.mem_cons_of_mem c hm)
    simp [splitCharAux, hc, ih (c :: acc) hcs, List.append_assoc]

theorem splitCharAux_seg (sep : Char) (p : List Char) :
    ∀ (acc rest : List Char), sep ∉ p →
      splitCharAux sep (p ++ sep :: rest) acc
        = (acc.reverse ++ p) :: splitCharAux sep rest [] := by
  induction p with
  | nil => intro acc rest _; simp [splitCharAux]
  | cons c cs ih =>
    intro acc rest h
    have hc : ¬ c = sep := fun hcs => h (by rw [hcs]; exact List.mem_cons_self sep cs)
    have hcs : sep ∉ cs := fun hm => h (List.mem_cons_of_mem c hm)
    simp [splitCharAux, hc, ih (c :: acc) rest hcs, List.append_assoc]

theorem splitChars_joinChars (sep : Char) (parts : List (List Char)) :
    parts ≠ [] → (∀ p ∈ parts, sep ∉ p) →
    splitChars sep (joinChars [sep] parts) = parts := by
  induction parts with
  | nil => intro hne _; exact absurd rfl hne
  | cons x xs ih =>
    intro _ hfree
    cases xs with
    | nil =>
      have hx := splitCharAux_no_sep sep x [] (hfree x (List.mem_cons_self x []))
      simpa [splitChars, joinChars] using hx
    | cons y ys =>
      have hx : sep ∉ x := hfree x (List.mem_cons_self x (y :: ys))
      have hj : joinChars [sep] (x :: y :: ys)
          = x ++ sep :: joinChars [sep] (y :: ys) := by
        simp [joinChars]
      rw [splitChars, hj, splitCharAux_seg sep x [] _ hx]
      have hrest := ih (by simp) (fun p hp => hfree p (List.mem_cons_of_mem x hp))
      rw [splitChars] at hrest
      rw [hrest]
      simp

theorem joinChars_append_empty (sep : List Char) (parts : List (List Char)) :
    parts ≠ [] → joinChars sep (parts ++ [[]]) = joinChars sep parts ++ sep := by
  induction parts with
  | nil => intro hne; exact absurd rfl hne
  | cons x xs ih =>
    intro _
    cases xs with
    | nil => simp [joinChars]
    | cons y ys =>
      have hxs := ih (by simp)
      simp only [List.cons_append] at hxs ⊢
      simp [joinChars, hxs, List.append_assoc]

theorem not_mem_joinChars (c : Char) (sep : List Char) (parts : List (List Char)) :
    c ∉ sep → (∀ p ∈ parts, c ∉ p) → c ∉ joinChars sep parts := by
  induction parts with
  | nil => intro _ _; simp [joinChars]
  | cons x xs ih =>
    intro hsep hparts
    cases xs with
    | nil => simpa [joinChars] using hparts x (List.mem_cons_self x [])
    | cons y ys =>
      have hx := hparts x (List.mem_cons_self x (y :: ys))
      have hrest := ih hsep (fun p hp => hparts p (List.mem_cons_of_mem x hp))
      simp [joinChars, List.mem_append, hx, hsep, hrest]

theorem joinChars_ne_nil (sepc : Char) (x : List Char) (xs : List (List Char)) :
    x ≠ [] → joinChars [sepc] (x :: xs) ≠ [] := by
  intro hx
  cases xs with
  | nil => simpa [joinChars] using hx
  | cons y ys => simp [joinChars]

theorem joinChars_getLast_ne (sepc : Char) (parts : List (List Char)) :
    (∀ p ∈ parts, p ≠ [] ∧ sepc ∉ p) → parts ≠ [] →
      (joinChars [sepc] parts).getLast? ≠ some sepc := by
  induction parts with
  | nil => intro _ hne; exact absurd rfl hne
  | cons x xs ih =>
    intro h _
    cases xs with
    | nil =>
      have hx := h x (List.mem_cons_self x [])
      simp only [joinChars]
      rw [List.getLast?_eq_getLast x hx.1]
      intro heq
      apply hx.2
      have hmem := List.getLast_mem hx.1
      rwa [Option.some.inj heq] at hmem
    | cons y ys =>
      have hy := h y (List.mem_cons_of_mem x (List.mem_cons_self y ys))
      have hrest := ih (fun p hp => h p (List.mem_cons_of_mem x hp)) (by simp)
      have hJ : joinChars [sepc] (y :: ys) ≠ [] := joinChars_ne_nil sepc y ys hy.1
      have hshape : joinChars [sepc] (x :: y :: ys)
          = (x ++ [sepc]) ++ joinChars [sepc] (y :: ys) := by
        simp [joinChars]
      rw [hshape, List.getLast?_append, List.getLast?_eq_getLast _ hJ,
        Option.or_some]
      rw [List.getLast?_eq_getLast _ hJ] at hrest
      exact hrest

theorem to_string_body_data (rows : List (List String)) :
    (to_string_body rows "\t").data
      = joinChars ['\n'] (rows.map lineChars) ++ ['\n'] := by
  unfold to_string_body join
  rw [String.data_append, List.map_map]
  rfl

theorem pollLoop_replicate_false (n : Nat) :
    pollLoop (List.replicate n false) = none := by
  induction n with
  | zero => rfl
  | succ n ih => simp [List.replicate_succ, pollLoop, ih]

theorem pollLoop_first_success (k : Nat) (rest : List Bool) :
    pollLoop (List.replicate k false ++ true :: rest) = some (k + 1, 10 * k) := by
  induction k with
  | zero => simp [pollLoop]
  | succ k ih => simp [List.replicate_succ, pollLoop, ih, Nat.mul_succ]

/-! ## Claims -/

/-- C1: the spec and the module docstring promise that `result(header=True)`
returns the full decoded row sequence, header included, so that its length is
one more than with `header=False`.  The code ignores the `header` parameter
and always pops the first decoded row: on one page with rows
`[["a","b"],["1","2"]]`, both calls return `[["1","2"]]`, the header row is
absent even when requested, and the two lengths are equal. -/
theorem result_drops_header_even_when_requested :
    ((mkResult [examplePage1]).result true).1 = [["1", "2"]] ∧
    ((mkResult [examplePage1]).result true).1 ≠ [["a", "b"], ["1", "2"]] ∧
    ((mkResult [examplePage1]).result false).1 = [["1", "2"]] ∧
    ((mkResult [examplePage1]).result true).1.length =
      ((mkResult [examplePage1]).result false).1.length := by
  refine ⟨rfl, by decide, rfl, rfl⟩

/-- C2 counterexample: two `result` calls with no intervening state change
issue two paginated fetch sequences, not at most one — `result` never reads
the `self.results` cache. -/
theorem result_twice_two_fetches :
    (((mkResult [examplePage1]).result true).2.result true).2.paginate_calls = 2 ∧
    ¬ (((mkResult [examplePage1]).result true).2.result true).2.paginate_calls ≤ 1 := by
  refine ⟨rfl, by decide⟩

/-- C2 amended: every `result` call issues exactly one fresh paginated fetch
(two consecutive calls issue two), though the second call returns the same
content since the remote pages are unchanged; memoization lives only in
`to_string`/`to_s3`, which reuse a populated `self.results` without any new
fetch. -/
theorem result_fetches_every_call (s : AthenaResult) (h h' : Bool) :
    ((s.result h).2.result h').2.paginate_calls = s.paginate_calls + 2 ∧
    ((s.result h).2.result h').1 = (s.result h).1 ∧
    (∀ (r : List (List String)) (d : String),
      (({ s with results := some r } : AthenaResult).to_string d).2.paginate_calls
        = s.paginate_calls) := by
  refine ⟨?_, ?_, ?_⟩
  · by_cases hp : s.pages.length = 0 <;> simp [result_spec, hp]
  · by_cases hp : s.pages.length = 0 <;> simp [result_spec, hp]
  · intro r d
    rw [to_string_cached _ r rfl d]

/-- C3 counterexample: the claim quantifies over every cached/fetched row
sequence, but the empty sequence (reached through the code: one page with a
single one-cell row decodes, the single row is popped, and `[]` is cached)
serializes to `"\n"`, whose round trip is `[[""]]`, not `[]`. -/
theorem to_string_round_trip_counterexample :
    ((mkResult [⟨[⟨[⟨some "x"⟩]⟩]⟩]).to_string "\t").1 = "\n" ∧
    ((mkResult [⟨[⟨[⟨some "x"⟩]⟩]⟩]).to_string "\t").2.results = some [] ∧
    roundTrip "\n" '\t' = [[""]] ∧ ([[""]] : List (List String)) ≠ [] := by
  refine ⟨rfl, rfl, rfl, by decide⟩

/-- C3 amended: for a cached row sequence that is nonempty, whose rows all
serialize to a nonempty line, and whose cells contain neither the tab
delimiter nor a newline, `to_string` ends with exactly one trailing newline
(the output is `body ++ '\n'` with `body` not ending in `'\n'`) and splitting
the output on `'\n'`, dropping the final empty segment, then re-splitting
each line on `'\t'`, reproduces the cached row sequence exactly. -/
theorem to_string_round_trip (s : AthenaResult) (rows : List (List String))
    (h1 : s.results = some rows)
    (h2 : rows ≠ [])
    (h3 : ∀ row ∈ rows, join "\t" row ≠ "")
    (h4 : ∀ row ∈ rows, ∀ c ∈ row, ¬ '\t' ∈ c.data ∧ ¬ '\n' ∈ c.data) :
    (∃ body : List Char,
      ((s.to_string "\t").1).data = body ++ ['\n'] ∧ body.getLast? ≠ some '\n') ∧
    roundTrip (s.to_string "\t").1 '\t' = rows := by
  have hout : (s.to_string "\t").1 = to_string_body rows "\t" := by
    rw [to_string_cached s rows h1 "\t"]
  have hdata : ((s.to_string "\t").1).data
      = joinChars ['\n'] (rows.map lineChars) ++ ['\n'] := by
    rw [hout, to_string_body_data]
  have hFne : ∀ row ∈ rows, lineChars row ≠ [] := by
    intro row hrow hnil
    apply h3 row hrow
    have hjoin : join "\t" row = ⟨lineChars row⟩ := rfl
    rw [hjoin, hnil]
  have hFfree : ∀ row ∈ rows, '\n' ∉ lineChars row := by
    intro row hrow
    apply not_mem_joinChars
    · decide
    · intro p hp
      rcases List.mem_map.mp hp with ⟨c, hc, rfl⟩
      exact (h4 row hrow c hc).2
  have hrowsne : rows.map lineChars ≠ [] := by
    intro hm
    exact h2 (List.map_eq_nil_iff.mp hm)
  refine ⟨⟨joinChars ['\n'] (rows.map lineChars), hdata, ?_⟩, ?_⟩
  · apply joinChars_getLast_ne
    · intro p hp
      rcases List.mem_map.mp hp with ⟨row, hrow, rfl⟩
      exact ⟨hFne row hrow, hFfree row hrow⟩
    · exact hrowsne
  · have hsplit : splitChars '\n' ((s.to_string "\t").1).data
        = rows.map lineChars ++ [[]] := by
      rw [hdata, ← joinChars_append_empty ['\n'] (rows.map lineChars) hrowsne]
      apply splitChars_joinChars
      · exact List.append_ne_nil_of_right_ne_nil _ (by simp)
      · intro p hp
        rcases List.mem_append.mp hp with hp | hp
        · rcases List.mem_map.mp hp with ⟨row, hrow, rfl⟩
          exact hFfree row hrow
        · simp only [List.mem_singleton] at hp
          rw [hp]
          simp
    have hline : ∀ row ∈ rows, pySplit ⟨lineChars row⟩ '\t' = row := by
      intro row hrow
      have hrowne : row.map String.data ≠ [] := by
        intro hm
        apply hFne row hrow
        unfold lineChars
        rw [hm]
        rfl
      have hfree : ∀ p ∈ row.map String.data, '\t' ∉ p := by
        intro p hp
        rcases List.mem_map.mp hp with ⟨c, hc, rfl⟩
        exact (h4 row hrow c hc).1
      unfold pySplit
      have hmkdata : (⟨lineChars row⟩ : String).data = lineChars row := rfl
      rw [hmkdata]
      unfold lineChars
      rw [splitChars_joinChars '\t' (row.map String.data) hrowne hfree,
        List.map_map]
      exact List.map_id'' (fun x => rfl) row
    unfold roundTrip pySplit
    rw [hsplit]
    simp only [List.map_append, List.map_cons, List.map_nil]
    rw [List.dropLast_concat]
    simp only [List.map_map]
    refine Eq.trans (List.map_congr_left ?_) (List.map_id'' (fun x => rfl) rows)
    intro row hrow
    have hl := hline row hrow
    unfold pySplit at hl
    exact hl

theorem to_string_round_trip_witness :
    roundTrip ((AthenaResult.mk [] (some [["1", "2"], ["3", "4"]]) none 0).to_string "\t").1 '\t'
      = [["1", "2"], ["3", "4"]] := by
  exact (to_string_round_trip (AthenaResult.mk [] (some [["1", "2"], ["3", "4"]]) none 0)
    [["1", "2"], ["3", "4"]] rfl (by decide) (by decide) (by decide)).2

/-- C4: during the poll phase of `Athena.query`, any exception from the
readiness check is silently caught and retried, with no retry bound and no
inspection of the query state: after any number `n` of consecutive failed
checks the loop is still running, and when the first success is the
`(k+1)`-st check the loop exits after exactly `k+1` calls having slept the
fixed cadence of `3` seconds up front plus `10` seconds after each of the
`k` failures. -/
theorem query_poll_unbounded_fixed_cadence :
    (∀ n : Nat, queryPoll (List.replicate n false) = none) ∧
    (∀ (k : Nat) (rest : List Bool),
      queryPoll (List.replicate k false ++ true :: rest) = some (k + 1, 3 + 10 * k)) := by
  constructor
  · intro n; simp [queryPoll, pollLoop_replicate_false]
  · intro k rest; simp [queryPoll, pollLoop_first_success]

/-- C5: the decoding loop of `result` emits exactly one string per cell, so
decoded width equals the reported cell count (rows with equal cell counts
decode to equal widths), and a cell with no `VarCharValue` decodes to the
empty string rather than being dropped. -/
theorem decode_missing_cell_empty_width_preserved (d : List Cell) :
    (decodeRow d).length = d.length ∧
    decodeRow d = d.map decodeCell ∧
    (∀ e : Cell, e.varCharValue = none → decodeCell e = "") := by
  refine ⟨?_, decodeRow_eq_map d, ?_⟩
  · rw [decodeRow_eq_map]; exact List.length_map d decodeCell
  · intro e he; simp [decodeCell, he]

theorem decode_missing_cell_witness :
    (decodeRow [⟨none⟩, ⟨some "x"⟩]).length = 2 ∧ decodeCell ⟨none⟩ = "" := by
  have h := decode_missing_cell_empty_width_preserved [⟨none⟩, ⟨some "x"⟩]
  exact ⟨h.1, h.2.2 ⟨none⟩ rfl⟩

/-- C6: with zero pages from the paginator, `result` returns the empty
sequence whatever the header flag (and whatever the rest of the state). -/
theorem result_zero_pages_empty (res : Option (List (List String)))
    (str : Option String) (n : Nat) (h : Bool) :
    ((AthenaResult.mk [] res str n).result h).1 = [] := by
  rfl

/-- C7: on two pages with rows `[["a","b"],["1","2"]]` and `[["3","4"]]`,
`result(header=False)` returns `[["1","2"],["3","4"]]` and a subsequent
`to_string()` returns `"1\t2\n3\t4\n"`. -/
theorem example_two_pages_result_and_string :
    ((mkResult [examplePage1, examplePage2]).result false).1
      = [["1", "2"], ["3", "4"]] ∧
    ((((mkResult [examplePage1, examplePage2]).result false).2).to_string "\t").1
      = "1\t2\n3\t4\n" := by
  exact ⟨rfl, rfl⟩

/-- C8: the decoded sequence built by lines 83-92 of `result` is the
concatenation, page by page in page order, of each page's rows decoded in
their intra-page order — no client-side reordering. -/
theorem final_data_concat_pages_in_order (pages : List Page) :
    final_data_of pages
      = (pages.map (fun p => p.rows.map (fun r => decodeRow r.data))).flatten := by
  unfold final_data_of data_of rows_of result_sets_of
  rw [decodeData_eq_map]
  simp only [List.map_map, List.map_flatten]
  refine congrArg List.flatten (List.map_congr_left ?_)
  intro p _
  simp [Function.comp, List.map_map]

/-- C9: whenever `result` decodes at least one row, the list stored in
`self.results` is exactly the list handed back to the caller after its first
row was popped in place — the cache and the return value agree and both lack
the first decoded row, for either header flag. -/
theorem result_caches_popped_list (s : AthenaResult) (h : Bool)
    (hne : final_data_of s.pages ≠ []) :
    (s.result h).2.results = some ((s.result h).1) ∧
    (s.result h).1 = (final_data_of s.pages).tail := by
  have hp : ¬ s.pages.length = 0 := by
    intro hp
    have : s.pages = [] := List.length_eq_zero.mp hp
    rw [this] at hne
    exact hne rfl
  simp [result_spec, hp]

theorem result_caches_popped_list_witness :
    ((mkResult [examplePage1]).result true).2.results
      = some (((mkResult [examplePage1]).result true).1) ∧
    ((mkResult [examplePage1]).result true).1
      = (final_data_of [examplePage1]).tail := by
  exact result_caches_popped_list (mkResult [examplePage1]) true (by decide)

/-- C10: with zero pages, `result` returns `[]` before the memoization field
is assigned, so `self.results` stays `None`; a subsequent `to_string()`
therefore issues a fresh remote fetch (the fetch counter advances again)
instead of reusing a cached empty result. -/
theorem zero_pages_leave_cache_unset (str : Option String) (n : Nat) (h : Bool) :
    ((AthenaResult.mk [] none str n).result h).1 = [] ∧
    ((AthenaResult.mk [] none str n).result h).2.results = none ∧
    ((AthenaResult.mk [] none str n).result h).2.paginate_calls = n + 1 ∧
    (((AthenaResult.mk [] none str n).result h).2.to_string "\t").2.paginate_calls
      = n + 2 := by
  exact ⟨rfl, rfl, rfl, rfl⟩

end PyAthena
